import Mathlib

/-!
# A shallow embedding of the Tiled AutoMapper core

This file models the rule-based automapping engine declared in
`src/tiled/automapper.h`.  The data structures (`Cell`, `TileLayer`,
`InputLayer`, `InputConditions`, `InputSet`, `OutputSet`, `RuleOptions`,
`RuleInputLayer`, `RuleInputLayerPos`, `RuleInputSet`,
`AutoMappingContext`, `AutoMapper.Options`, `Rule`) are translated from
the header.  The repository ships only the header, so the bodies of the
member functions (`compileInputSet`, `matchRule`, `applyRule`,
`copyTileRegion`, `prepareAutoMap`, `autoMap`, ...) are modelled from
the specification's description of their behaviour; each such
definition carries a doc comment starting with `Modelled from the
spec:`.

Conventions of the embedding:
* `QPoint`/coordinates are `Int × Int`; a `QRegion` is a finite list of
  points; a `QRect` is an explicit structure.
* A `Cell` is its tile identity (`0` = the empty cell, as with global
  tile ids); `qreal` probabilities are rationals.
* Pointers to layers are replaced by layer values or by layer names,
  and `QHash` tables by association lists.
* Randomness is an explicit linear-congruential generator threaded
  through the scan state, as the spec requires a seedable generator.
-/

namespace Tiled

/-- A tile cell, identified by its (global) tile id; id 0 is the empty
cell.  Stands for `Tiled::Cell` used in `tilelayer.h`. -/
structure Cell where
  tileId : Nat
deriving DecidableEq, Repr

/-- The empty cell. -/
def Cell.empty : Cell := ⟨0⟩

/-- Whether a cell is empty (holds no tile). -/
def Cell.isEmpty (c : Cell) : Bool := c.tileId == 0

/-- A tile layer: a `width × height` grid of cells stored row-major.
Stands for `Tiled::TileLayer` (`tilelayer.h`). -/
structure TileLayer where
  width : Nat
  height : Nat
  data : List Cell
deriving DecidableEq, Repr

/-- Whether `(x, y)` lies inside the layer's bounds. -/
def TileLayer.contains (l : TileLayer) (x y : Int) : Bool :=
  0 ≤ x && x < (l.width : Int) && 0 ≤ y && y < (l.height : Int)

/-- The cell at `(x, y)`; the empty cell outside the bounds, as
`TileLayer::cellAt` returns the empty cell for missing positions. -/
def TileLayer.cellAt (l : TileLayer) (x y : Int) : Cell :=
  if l.contains x y then
    l.data.getD (y.toNat * l.width + x.toNat) Cell.empty
  else
    Cell.empty

/-- Write cell `c` at `(x, y)`; writes outside the bounds are dropped. -/
def TileLayer.setCell (l : TileLayer) (x y : Int) (c : Cell) : TileLayer :=
  if l.contains x y then
    { l with data := l.data.set (y.toNat * l.width + x.toNat) c }
  else
    l

/-- A layer that is empty everywhere, used in place of a missing input
layer (the `dummy` member of `AutoMapper`). -/
def dummy : TileLayer := { width := 0, height := 0, data := [] }

/-- A point of the integer grid (`QPoint`). -/
abbrev GridPoint := Int × Int

/-- A region of the grid (`QRegion`), as the finite list of its points. -/
abbrev Region := List GridPoint

/-- A rectangle (`QRect`): top-left corner and size. -/
structure Rect where
  x : Int
  y : Int
  w : Nat
  h : Nat
deriving DecidableEq, Repr

/-- The points of a rectangle, row by row. -/
def Rect.points (r : Rect) : List GridPoint :=
  (List.range r.h).flatMap fun dy =>
    (List.range r.w).map fun dx => (r.x + dx, r.y + dy)

/-- Translate a region by an offset. -/
def Region.translate (rg : Region) (p : GridPoint) : Region :=
  rg.map fun q => (q.1 + p.1, q.2 + p.2)

/-- Whether two regions (as point lists) share a point. -/
def Region.intersects (a b : Region) : Bool :=
  a.any fun p => b.contains p

/-- Left x coordinate of the bounding rectangle of a region (0 for the
empty region). -/
def Region.left (rg : Region) : Int :=
  match rg with
  | [] => 0
  | p :: ps => ps.foldl (fun m q => min m q.1) p.1

/-- Top y coordinate of the bounding rectangle of a region (0 for the
empty region). -/
def Region.top (rg : Region) : Int :=
  match rg with
  | [] => 0
  | p :: ps => ps.foldl (fun m q => min m q.2) p.2

/-- Right x coordinate of the bounding rectangle of a region. -/
def Region.right (rg : Region) : Int :=
  match rg with
  | [] => 0
  | p :: ps => ps.foldl (fun m q => max m q.1) p.1

/-- Bottom y coordinate of the bounding rectangle of a region. -/
def Region.bottom (rg : Region) : Int :=
  match rg with
  | [] => 0
  | p :: ps => ps.foldl (fun m q => max m q.2) p.2

/-- The bounding rectangle of a region. -/
def Region.boundingRect (rg : Region) : Rect :=
  { x := rg.left, y := rg.top,
    w := (rg.right - rg.left + 1).toNat, h := (rg.bottom - rg.top + 1).toNat }

/-- `struct InputLayer` of the header: a rules-map tile layer together
with its strict-empty flag. -/
structure InputLayer where
  tileLayer : TileLayer
  strictEmpty : Bool
deriving DecidableEq, Repr

/-- `struct InputConditions` of the header: the per-layer-name positive
(`listYes`, "input") and negative (`listNo`, "inputnot") pattern
layers. -/
structure InputConditions where
  layerName : String
  listYes : List InputLayer
  listNo : List InputLayer
deriving DecidableEq, Repr

/-- `struct InputSet` of the header: a named alternative of matching
layers; a rule matches when any of its input sets matches. -/
structure InputSet where
  name : String
  layers : List InputConditions
deriving DecidableEq, Repr

/-- A map object staged by the Applier (only its identity and position
matter to this model). -/
structure MapObj where
  id : Nat
  x : Int
  y : Int
deriving DecidableEq, Repr

/-- `struct OutputSet` of the header: a named set of output layers of
the rules map mapped to their names in the target map.  Tile layers and
object groups are kept in separate lists here in place of the
`QHash<const Layer*, QString>` over polymorphic layers. -/
structure OutputSet where
  name : String
  layers : List (TileLayer × String)
  objectGroups : List (List MapObj × String)
deriving DecidableEq, Repr

/-- `struct RuleOptions` of the header, with its default member
values. -/
structure RuleOptions where
  skipChance : ℚ := 0
  modX : Nat := 1
  modY : Nat := 1
  offsetX : Int := 0
  offsetY : Int := 0
  noOverlappingOutput : Bool := false
  disabled : Bool := false
deriving DecidableEq, Repr

/-- `struct RuleInputLayer` of the header: a reference to a layer of
the target map plus the number of compiled positions on it. -/
structure RuleInputLayer where
  targetLayer : TileLayer
  posCount : Nat
deriving DecidableEq, Repr

/-- `struct RuleInputLayerPos` of the header: a position relative to
the match location, with the counts of "any of these cells" and "none
of these cells" entries in the shared cell list. -/
structure RuleInputLayerPos where
  x : Int
  y : Int
  anyCount : Nat
  noneCount : Nat
deriving DecidableEq, Repr

/-- `struct RuleInputSet` of the header: the packed, compiled form of
one `InputSet` — flat containers for layers, positions and cells. -/
structure RuleInputSet where
  layers : List RuleInputLayer
  positions : List RuleInputLayerPos
  cells : List Cell
deriving DecidableEq, Repr

/-- `AutoMapper::Rule` of the header: the input and output region of
one rule, plus its resolved options.  Regions are stored relative to
the rule's anchor origin. -/
structure Rule where
  inputRegion : Region
  outputRegion : Region
  options : RuleOptions
deriving DecidableEq, Repr

/-- `AutoMapper::Options` of the header, with its default member
values. -/
structure Options where
  deleteTiles : Bool := false
  matchOutsideMap : Bool := false
  overflowBorder : Bool := false
  wrapBorder : Bool := false
  matchInOrder : Option Bool := none
  autoMappingRadius : Int := 0
deriving DecidableEq, Repr

/-- Clamp an integer coordinate into `[0, n)` (the nearest in-bounds
coordinate of a dimension of size `n`). -/
def clampCoord (x : Int) (n : Nat) : Int :=
  max 0 (min x ((n : Int) - 1))

/-- Modelled from the spec: the boundary policy of out-of-bounds reads
(`AutoMapper::GetCell` and the choice among the plain, clamping and
wrapping cell getters, whose definitions are not in the header).  With
`matchOutsideMap` and `wrapBorder`, reads wrap modulo the layer
dimensions; with `matchOutsideMap` and `overflowBorder`, reads clamp to
the nearest in-bounds cell; otherwise the plain `cellAt` is used (empty
outside the bounds).  The spec treats simultaneous wrap+overflow as
mutually exclusive; wrap is preferred here. -/
def getCellFor (opts : Options) (l : TileLayer) (x y : Int) : Cell :=
  if opts.matchOutsideMap && opts.wrapBorder then
    l.cellAt (x % (l.width : Int)) (y % (l.height : Int))
  else if opts.matchOutsideMap && opts.overflowBorder then
    l.cellAt (clampCoord x l.width) (clampCoord y l.height)
  else
    l.cellAt x y

/-- Modelled from the spec: the name → target-layer binding built by
`setupWorkMapLayers` into `AutoMappingContext::inputLayers`; a name
with no corresponding tile layer in the target map is bound to the
empty `dummy` layer instead of failing. -/
def lookupLayer (binding : List (String × TileLayer)) (name : String) : TileLayer :=
  match binding.find? (fun e => e.1 == name) with
  | some e => e.2
  | none => dummy

/-- Modelled from the spec: the per-position classification step of the
Rule Compiler.  For a list of pattern layers, collect the cell identity
at `(x, y)` of each, honouring the strict-empty flag: an empty pattern
cell participates as a constraint only when `strictEmpty` is set,
otherwise it is ignored. -/
def cellsOfPattern (ls : List InputLayer) (x y : Int) : List Cell :=
  ls.filterMap fun il =>
    let c := il.tileLayer.cellAt x y
    if c.isEmpty && !il.strictEmpty then none else some c

/-- Modelled from the spec: compile one `InputConditions` (one input
layer name) over the rule's input region into the packed position and
cell lists.  Each region point yields its "any" cells (from `listYes`)
and "none" cells (from `listNo`); positions with no constraints at all
are omitted.  Positions are stored relative to the region's bounding
rectangle top-left corner. -/
def compileConditions (cond : InputConditions) (inputRegion : Region) :
    List RuleInputLayerPos × List Cell :=
  let lt := Region.left inputRegion
  let tp := Region.top inputRegion
  inputRegion.foldr
    (fun p acc =>
      let anyCells := cellsOfPattern cond.listYes p.1 p.2
      let noneCells := cellsOfPattern cond.listNo p.1 p.2
      if anyCells.isEmpty && noneCells.isEmpty then acc
      else (⟨p.1 - lt, p.2 - tp, anyCells.length, noneCells.length⟩ :: acc.1,
            anyCells ++ (noneCells ++ acc.2)))
    ([], [])

/-- Modelled from the spec: `AutoMapper::compileInputSet` — compile one
`InputSet` of a rule, against a target-layer binding, into the packed
`RuleInputSet` (one `RuleInputLayer` entry per `InputConditions`, the
flat position list and the flat cell list). -/
def compileInputSet (inputSet : InputSet) (inputRegion : Region)
    (binding : List (String × TileLayer)) : RuleInputSet :=
  inputSet.layers.foldr
    (fun cond acc =>
      let pc := compileConditions cond inputRegion
      { layers := ⟨lookupLayer binding cond.layerName, pc.1.length⟩ :: acc.layers,
        positions := pc.1 ++ acc.positions,
        cells := pc.2 ++ acc.cells })
    ⟨[], [], []⟩

/-- The number of cells of the shared cell list consumed by a list of
compiled positions. -/
def cellsNeeded (ps : List RuleInputLayerPos) : Nat :=
  ps.foldr (fun p n => p.anyCount + p.noneCount + n) 0

/-- Modelled from the spec: the hot loop of the Matcher on one target
layer.  For every compiled position, the cell at `anchor + relpos` must
equal one of the position's "any" identities (when any are listed) and
none of its "none" identities; under the default boundary policy an
out-of-bounds position never matches (fails the whole input set), and
otherwise reads are resolved by `getCellFor`. -/
def matchPositions (opts : Options) (target : TileLayer) (anchor : GridPoint) :
    List RuleInputLayerPos → List Cell → Bool
  | [], _ => true
  | p :: ps, cs =>
    (if !opts.matchOutsideMap &&
        !target.contains (anchor.1 + p.x) (anchor.2 + p.y) then false
     else
       ((cs.take p.anyCount).isEmpty ||
         (cs.take p.anyCount).contains
           (getCellFor opts target (anchor.1 + p.x) (anchor.2 + p.y))) &&
       !(((cs.drop p.anyCount).take p.noneCount).contains
           (getCellFor opts target (anchor.1 + p.x) (anchor.2 + p.y)))) &&
    matchPositions opts target anchor ps ((cs.drop p.anyCount).drop p.noneCount)

/-- Modelled from the spec: evaluate the layer entries of a compiled
input set in turn, each consuming its `posCount` positions and their
cells from the flat lists. -/
def matchLayers (opts : Options) (anchor : GridPoint) :
    List RuleInputLayer → List RuleInputLayerPos → List Cell → Bool
  | [], _, _ => true
  | l :: ls, ps, cs =>
    matchPositions opts l.targetLayer anchor (ps.take l.posCount) cs &&
    matchLayers opts anchor ls (ps.drop l.posCount)
      (cs.drop (cellsNeeded (ps.take l.posCount)))

/-- Modelled from the spec: whether one compiled `RuleInputSet` fully
matches at `anchor`. -/
def matchRuleInputSet (opts : Options) (anchor : GridPoint) (ris : RuleInputSet) : Bool :=
  matchLayers opts anchor ris.layers ris.positions ris.cells

/-- Modelled from the spec: whether an anchor lies on the periodic
sub-grid selected by the rule's `modX`/`modY` stride and
`offsetX`/`offsetY` shift. -/
def onSubGrid (o : RuleOptions) (p : GridPoint) : Bool :=
  (p.1 - o.offsetX) % (o.modX : Int) == 0 &&
  (p.2 - o.offsetY) % (o.modY : Int) == 0

/-- Modelled from the spec: `AutoMapper::matchRule` — compile every
`InputSet` of the rule, then report each anchor of the match region
that lies on the rule's mod/offset sub-grid and at which at least one
compiled input set fully matches.  A disabled rule never matches. -/
def matchRule (inputSets : List InputSet) (opts : Options) (rule : Rule)
    (matchRegion : Region) (binding : List (String × TileLayer)) : Region :=
  if rule.options.disabled then []
  else
    let compiled := inputSets.map fun s => compileInputSet s rule.inputRegion binding
    matchRegion.filter fun p =>
      onSubGrid rule.options p && compiled.any fun ris => matchRuleInputSet opts p ris

/-- `struct AutoMappingContext` of the header: the staging area for one
scan session.  The `AutoMapper` does not change the target map
directly; all changes are recorded here.  `QHash`/`std::unordered_map`
members are association lists keyed by layer name. -/
structure AutoMappingContext where
  newTilesets : List String := []
  newLayers : List (String × TileLayer) := []
  newMapObjects : List MapObj := []
  mapObjectsToRemove : List Nat := []
  originalToOutputLayerMapping : List (String × TileLayer) := []
  touchedTileLayers : List String := []
  inputLayers : List (String × TileLayer) := []
deriving DecidableEq, Repr

/-- The target map: its named tile layers. -/
structure TargetMap where
  layers : List (String × TileLayer)
deriving DecidableEq, Repr

/-- The state threaded through a scan: the (read-only) target map, the
staging context, the random generator state, and the engine's error
string (`AutoMapper::mError`). -/
structure ScanState where
  targetMap : TargetMap
  context : AutoMappingContext
  rng : Nat
  error : Option String := none
deriving DecidableEq, Repr

/-- A step of the session's linear-congruential pseudo-random
generator, modelling the seedable generator the spec requires. -/
def nextRand (s : Nat) : Nat × Nat :=
  let s2 := (s * 1103515245 + 12345) % 2147483648
  (s2, s2)

/-- Modelled from the spec: the skip-chance draw — a uniform value in
`[0, 1)` derived from the random roll, compared against the rule's
skip probability. -/
def skipRoll (roll : Nat) (chance : ℚ) : Bool :=
  Rat.divInt (roll % 2147483648) 2147483648 < chance

/-- Replace the value of the first entry with key `k` (keys are kept
as they are). -/
def updateAssoc (m : List (String × TileLayer)) (k : String) (v : TileLayer) :
    List (String × TileLayer) :=
  match m with
  | [] => []
  | e :: es => if e.1 == k then (k, v) :: es else e :: updateAssoc es k v

/-- Modelled from the spec: copy-on-first-write access to the staged
clone of a target tile layer
(`AutoMappingContext::originalToOutputLayerMapping`).  The first write
to a layer clones it from the target map into the context and marks it
touched; every later write reuses and updates the existing clone, so
the context never holds two clones of the same layer. -/
def AutoMappingContext.modifyClone (ctx : AutoMappingContext) (tm : TargetMap)
    (name : String) (f : TileLayer → TileLayer) : AutoMappingContext :=
  match ctx.originalToOutputLayerMapping.find? (fun e => e.1 == name) with
  | some e =>
    { ctx with originalToOutputLayerMapping :=
        updateAssoc ctx.originalToOutputLayerMapping name (f e.2) }
  | none =>
    { ctx with
      originalToOutputLayerMapping :=
        (name, f (lookupLayer tm.layers name)) :: ctx.originalToOutputLayerMapping,
      touchedTileLayers := ctx.touchedTileLayers ++ [name] }

/-- One step of `copyTileRegion`: copy the source cell under `p` to
its translated destination position when it is non-empty. -/
def copyStep (src : TileLayer) (rect : Rect) (dX dY : Int)
    (dst : TileLayer) (p : GridPoint) : TileLayer :=
  if (src.cellAt p.1 p.2).isEmpty then dst
  else dst.setCell (dX + (p.1 - rect.x)) (dY + (p.2 - rect.y)) (src.cellAt p.1 p.2)

/-- Modelled from the spec and the header's doc comment on
`AutoMapper::copyTileRegion`: copy the tiles of `srcLayer` taken from
`rect` into `dstLayer` at the rectangle given by `dstX`, `dstY` and the
size of `rect`; if there is no tile in the source layer nothing is
copied, so a maybe existing tile in the destination is not
overwritten. -/
def copyTileRegion (srcLayer : TileLayer) (rect : Rect) (dstLayer : TileLayer)
    (dstX dstY : Int) : TileLayer :=
  rect.points.foldl (copyStep srcLayer rect dstX dstY) dstLayer

/-- Modelled from the spec: `AutoMapper::copyMapRegion` — copy the
output region of every output layer of the chosen output set into the
corresponding staged clone, translated by `off`, and stage the output
object groups' objects (translated likewise) as additions. -/
def copyMapRegion (region : Region) (off : GridPoint) (ruleOutput : OutputSet)
    (tm : TargetMap) (ctx : AutoMappingContext) : AutoMappingContext :=
  let rect := region.boundingRect
  let ctx1 := ruleOutput.layers.foldl
    (fun c le =>
      c.modifyClone tm le.2 fun dst =>
        copyTileRegion le.1 rect dst (off.1 + rect.x) (off.2 + rect.y))
    ctx
  ruleOutput.objectGroups.foldl
    (fun c ge =>
      { c with newMapObjects := c.newMapObjects ++
          ge.1.map fun o => { o with x := o.x + off.1, y := o.y + off.2 } })
    ctx1

/-- Modelled from the spec: `AutoMapper::applyRule` at a single matched
anchor.  First the skip-chance draw; then, under `noOverlappingOutput`,
the anchor's output footprint is checked against the accumulated
already-written region and overlapping anchors are skipped entirely;
otherwise one output set is chosen uniformly at random and its content
is copied into the staging context, and the footprint is added to the
accumulated region.  Returns whether the anchor was applied. -/
def applyRuleAt (outputSets : List OutputSet) (rule : Rule) (anchor : GridPoint)
    (applied : Region) (st : ScanState) : Bool × Region × ScanState :=
  let r1 := nextRand st.rng
  let st1 := { st with rng := r1.2 }
  if skipRoll r1.1 rule.options.skipChance then
    (false, applied, st1)
  else if rule.options.noOverlappingOutput &&
      Region.intersects (rule.outputRegion.translate anchor) applied then
    (false, applied, st1)
  else
    let r2 := nextRand st1.rng
    let st2 := { st1 with rng := r2.2 }
    let out := outputSets.getD (r2.1 % outputSets.length) ⟨"", [], []⟩
    let ctx2 := copyMapRegion rule.outputRegion anchor out st2.targetMap st2.context
    (true, applied ++ rule.outputRegion.translate anchor, { st2 with context := ctx2 })

/-- Modelled from the spec: apply a rule at each matched anchor in scan
order, threading the accumulated already-written region; returns the
list of anchors that were actually applied. -/
def applyAnchors (outputSets : List OutputSet) (rule : Rule) :
    List GridPoint → Region → ScanState → List GridPoint × Region × ScanState
  | [], applied, st => ([], applied, st)
  | a :: rest, applied, st =>
    let r := applyRuleAt outputSets rule a applied st
    let q := applyAnchors outputSets rule rest r.2.1 r.2.2
    ((if r.1 then a :: q.1 else q.1), q.2.1, q.2.2)

/-- Modelled from the spec: a rule is malformed when its input or
output pattern region is empty; such a rule is skipped with a warning
instead of aborting the scan. -/
def ruleMalformed (rule : Rule) : Bool :=
  rule.inputRegion.isEmpty || rule.outputRegion.isEmpty

/-- The warning text accumulated for a skipped malformed rule. -/
def malformedWarning : String := "skipping malformed rule"

/-- The per-instance data of `AutoMapper` a scan needs: the input and
output sets of the rules map (`RuleMapSetup::mInputSets`,
`mOutputSets`), the rule list (`mRules`) and the map-wide options
(`mOptions`). -/
structure AutoMapperModel where
  inputSets : List InputSet
  outputSets : List OutputSet
  rules : List Rule
  options : Options
deriving DecidableEq, Repr

/-- Modelled from the spec: process one rule of a scan — a malformed
rule is skipped with a warning; otherwise the Matcher collects the
matching anchors and the Applier applies the rule at each of them.
Warnings are returned beside the new state. -/
def processRule (m : AutoMapperModel) (region : Region) (st : ScanState)
    (rule : Rule) : ScanState × List String :=
  if ruleMalformed rule then (st, [malformedWarning])
  else
    let anchors := matchRule m.inputSets m.options rule region st.context.inputLayers
    let r := applyAnchors m.outputSets rule anchors [] st
    (r.2.2, [])

/-- Modelled from the spec: run a list of rules in declaration order,
accumulating staged edits in the state and collecting warnings. -/
def runRules (m : AutoMapperModel) (region : Region) :
    List Rule → ScanState → ScanState × List String
  | [], st => (st, [])
  | r :: rs, st =>
    let p := processRule m region st r
    let q := runRules m region rs p.1
    (q.1, p.2 ++ q.2)

/-- One step of `prepareAutoMap`: record output layer name `n` as a new
layer when it exists neither in the target map nor among the already
recorded new layers. -/
def bindNewLayer (tm : TargetMap) (c : AutoMappingContext) (n : String) :
    AutoMappingContext :=
  if (tm.layers.find? (fun e => e.1 == n)).isSome then c
  else if (c.newLayers.find? (fun e => e.1 == n)).isSome then c
  else { c with newLayers := c.newLayers ++ [(n, dummy)] }

/-- One step of the `deleteTiles` pre-clearing: stage a cleared clone
of the output layer named `n`. -/
def clearLayer (tm : TargetMap) (c : AutoMappingContext) (n : String) :
    AutoMappingContext :=
  c.modifyClone tm n fun l => { l with data := l.data.map fun _ => Cell.empty }

/-- Modelled from the spec: `AutoMapper::prepareAutoMap` — rebuild the
name → target-layer binding for the input layers (a missing name is
bound to the `dummy` layer), record output layers absent from the
target map as new layers in the context, and, under the `deleteTiles`
option, pre-clear a clone of every output layer. -/
def prepareAutoMap (m : AutoMapperModel) (st : ScanState) : ScanState :=
  let inputNames := m.inputSets.flatMap fun s => s.layers.map (·.layerName)
  let binding := inputNames.map (fun n => (n, lookupLayer st.targetMap.layers n))
  let ctx1 := { st.context with inputLayers := binding }
  let outputNames := m.outputSets.flatMap fun o => o.layers.map (·.2)
  let ctx2 := outputNames.foldl (bindNewLayer st.targetMap) ctx1
  let ctx3 :=
    if m.options.deleteTiles then
      outputNames.foldl (clearLayer st.targetMap) ctx2
    else ctx2
  { st with context := ctx3 }

/-- Modelled from the spec: `AutoMapper::autoMap` — run Matcher and
Applier for every rule over the requested region, accumulating all
edits in the context; the target map itself is only read. -/
def autoMap (m : AutoMapperModel) (region : Region) (st : ScanState) :
    ScanState × List String :=
  runRules m region m.rules st

/-- Unpack the packed position/cell lists of a compiled input set into
explicit (relative position, "any" cells, "none" cells) entries — the
per-position view the spec describes. -/
def unpackPositions : List RuleInputLayerPos → List Cell →
    List (GridPoint × List Cell × List Cell)
  | [], _ => []
  | p :: ps, cs =>
    ((p.x, p.y), cs.take p.anyCount, (cs.drop p.anyCount).take p.noneCount) ::
      unpackPositions ps ((cs.drop p.anyCount).drop p.noneCount)

/-- Unpack a compiled input set into its per-target-layer constraint
entries. -/
def unpackLayers : List RuleInputLayer → List RuleInputLayerPos → List Cell →
    List (TileLayer × List (GridPoint × List Cell × List Cell))
  | [], _, _ => []
  | l :: ls, ps, cs =>
    (l.targetLayer, unpackPositions (ps.take l.posCount) cs) ::
      unpackLayers ls (ps.drop l.posCount)
        (cs.drop (cellsNeeded (ps.take l.posCount)))

/-- The claim's declarative reading of one compiled position constraint
at an anchor: the position must be readable under the boundary policy
(in bounds unless `matchOutsideMap`), and the resolved cell must equal
one of the "any" identities (when any are listed) and none of the
"none" identities. -/
def SatisfiesEntry (opts : Options) (target : TileLayer) (anchor : GridPoint)
    (e : GridPoint × List Cell × List Cell) : Prop :=
  (opts.matchOutsideMap = true ∨
    target.contains (anchor.1 + e.1.1) (anchor.2 + e.1.2) = true) ∧
  (e.2.1 ≠ [] →
    getCellFor opts target (anchor.1 + e.1.1) (anchor.2 + e.1.2) ∈ e.2.1) ∧
  getCellFor opts target (anchor.1 + e.1.1) (anchor.2 + e.1.2) ∉ e.2.2

/-- The claim's notion of a fully satisfied compiled input set: every
listed relative position on every listed target layer satisfies its
"any"/"none" cell constraints at the anchor. -/
def SatisfiesInputSet (opts : Options) (anchor : GridPoint)
    (ris : RuleInputSet) : Prop :=
  ∀ le ∈ unpackLayers ris.layers ris.positions ris.cells,
    ∀ e ∈ le.2, SatisfiesEntry opts le.1 anchor e

instance (opts : Options) (target : TileLayer) (anchor : GridPoint)
    (e : GridPoint × List Cell × List Cell) :
    Decidable (SatisfiesEntry opts target anchor e) := by
  unfold SatisfiesEntry; infer_instance

instance (opts : Options) (anchor : GridPoint) (ris : RuleInputSet) :
    Decidable (SatisfiesInputSet opts anchor ris) := by
  unfold SatisfiesInputSet; infer_instance

/-- The keys of the staged original-layer → clone table of a context. -/
def mappingKeys (ctx : AutoMappingContext) : List String :=
  ctx.originalToOutputLayerMapping.map (·.1)

/-- The output footprint of a rule at an anchor: its output region
translated to the anchor. -/
def Rule.footprint (r : Rule) (anchor : GridPoint) : Region :=
  r.outputRegion.translate anchor

end Tiled

section Sanity

open Tiled

example : (dummy.cellAt 3 5) = Cell.empty := by decide

example :
    (TileLayer.mk 2 2 [⟨1⟩, ⟨2⟩, ⟨3⟩, ⟨4⟩]).cellAt 1 1 = ⟨4⟩ := by decide

example :
    getCellFor { matchOutsideMap := true, wrapBorder := true }
      (TileLayer.mk 2 2 [⟨1⟩, ⟨2⟩, ⟨3⟩, ⟨4⟩]) (-1) 0 = ⟨2⟩ := by decide

example :
    getCellFor { matchOutsideMap := true, overflowBorder := true }
      (TileLayer.mk 2 2 [⟨1⟩, ⟨2⟩, ⟨3⟩, ⟨4⟩]) (-1) 0 = ⟨1⟩ := by decide

example :
    let target : TileLayer := ⟨3, 3, [⟨1⟩, ⟨2⟩, ⟨3⟩, ⟨4⟩, ⟨5⟩, ⟨6⟩, ⟨7⟩, ⟨8⟩, ⟨9⟩]⟩
    let pat : TileLayer := ⟨1, 1, [⟨5⟩]⟩
    let s : InputSet := ⟨"set1", [⟨"main", [⟨pat, false⟩], []⟩]⟩
    let rule : Rule := ⟨[(0, 0)], [(0, 0)], {}⟩
    matchRule [s] {} rule
      ((Rect.mk 0 0 3 3).points) [("main", target)] = [(1, 1)] := by decide

end Sanity

namespace Tiled

theorem contains_iff (l : TileLayer) (x y : Int) :
    l.contains x y = true ↔
      0 ≤ x ∧ x < (l.width : Int) ∧ 0 ≤ y ∧ y < (l.height : Int) := by
  simp [TileLayer.contains, and_assoc]

theorem rowMajor_inj (w a b c d : Nat) (hb : b < w) (hd : d < w)
    (h : a * w + b = c * w + d) : a = c ∧ b = d := by
  have hw : 0 < w := by omega
  have hbd : b = d := by
    have h1 : (a * w + b) % w = b := by
      rw [Nat.add_comm, Nat.add_mul_mod_self_right, Nat.mod_eq_of_lt hb]
    have h2 : (c * w + d) % w = d := by
      rw [Nat.add_comm, Nat.add_mul_mod_self_right, Nat.mod_eq_of_lt hd]
    rw [← h1, ← h2, h]
  refine ⟨?_, hbd⟩
  have hac : a * w = c * w := by omega
  exact Nat.eq_of_mul_eq_mul_right hw hac

theorem cellAt_setCell_ne (l : TileLayer) (x y px py : Int) (c : Cell)
    (h : px ≠ x ∨ py ≠ y) :
    (l.setCell x y c).cellAt px py = l.cellAt px py := by
  unfold TileLayer.setCell
  split
  case isTrue hxy =>
    unfold TileLayer.cellAt
    have hcont :
        ({ l with data := l.data.set (y.toNat * l.width + x.toNat) c } :
          TileLayer).contains px py = l.contains px py := rfl
    rw [hcont]
    split
    case isTrue hp =>
      rw [contains_iff] at hxy hp
      simp only [List.getD_eq_getElem?_getD]
      rw [List.getElem?_set_ne]
      intro heq
      have hxw : x.toNat < l.width := by omega
      have hpxw : px.toNat < l.width := by omega
      have := rowMajor_inj l.width y.toNat x.toNat py.toNat px.toNat hxw hpxw heq
      omega
    case isFalse _ => rfl
  case isFalse _ => rfl

theorem cellAt_setCell_self (l : TileLayer) (x y : Int) (c : Cell) :
    (l.setCell x y c).cellAt x y = c ∨
    (l.setCell x y c).cellAt x y = l.cellAt x y := by
  unfold TileLayer.setCell
  split
  case isTrue hxy =>
    unfold TileLayer.cellAt
    have hcont :
        ({ l with data := l.data.set (y.toNat * l.width + x.toNat) c } :
          TileLayer).contains x y = l.contains x y := rfl
    rw [hcont, if_pos hxy, if_pos hxy]
    by_cases hlen : y.toNat * l.width + x.toNat < l.data.length
    · left
      simp only [List.getD_eq_getElem?_getD]
      rw [List.getElem?_set_self hlen]
      rfl
    · right
      simp only [List.getD_eq_getElem?_getD, List.getElem?_set]
      rw [List.getElem?_eq_none
        (show l.data.length ≤ y.toNat * l.width + x.toNat by omega)]
      simp [hlen]
  case isFalse _ => right; rfl

theorem copyFold_cases (src : TileLayer) (rect : Rect) (dX dY : Int) :
    ∀ (pts : List GridPoint) (dst : TileLayer) (px py : Int),
      (pts.foldl (copyStep src rect dX dY) dst).cellAt px py = dst.cellAt px py ∨
      ∃ q, q ∈ pts ∧ dX + (q.1 - rect.x) = px ∧ dY + (q.2 - rect.y) = py ∧
        (src.cellAt q.1 q.2).isEmpty = false ∧
        (pts.foldl (copyStep src rect dX dY) dst).cellAt px py
          = src.cellAt q.1 q.2 := by
  intro pts
  induction pts with
  | nil => intro dst px py; left; rfl
  | cons p pts ih =>
    intro dst px py
    rw [List.foldl_cons]
    rcases ih (copyStep src rect dX dY dst p) px py with
      hleft | ⟨q, hq, hqx, hqy, hqne, hqval⟩
    · by_cases hempty : (src.cellAt p.1 p.2).isEmpty = true
      · left
        rw [hleft]
        simp only [copyStep, if_pos hempty]
      · have hstep : copyStep src rect dX dY dst p =
            dst.setCell (dX + (p.1 - rect.x)) (dY + (p.2 - rect.y))
              (src.cellAt p.1 p.2) := by
          simp only [copyStep, if_neg hempty]
        rw [hstep] at hleft ⊢
        by_cases hcoord : px = dX + (p.1 - rect.x) ∧ py = dY + (p.2 - rect.y)
        · rcases hcoord with ⟨hcx, hcy⟩
          subst hcx; subst hcy
          rcases cellAt_setCell_self dst (dX + (p.1 - rect.x))
              (dY + (p.2 - rect.y)) (src.cellAt p.1 p.2) with hself | hkeep
          · right
            exact ⟨p, List.mem_cons_self _ _, rfl, rfl,
              Bool.eq_false_iff.mpr hempty, hleft.trans hself⟩
          · left
            exact hleft.trans hkeep
        · left
          rw [hleft, cellAt_setCell_ne]
          rcases not_and_or.mp hcoord with h | h
          · left; exact h
          · right; exact h
    · right
      exact ⟨q, List.mem_cons_of_mem _ hq, hqx, hqy, hqne, hqval⟩

/-- C3: non-destructive copy invariant of `copyTileRegion` — at every
destination position, either the destination layer's cell is unchanged,
or the corresponding source cell of the copied rectangle is non-empty
and is the value written.  In particular an empty source cell never
clears an existing destination cell. -/
theorem copyTileRegion_nondestructive (src : TileLayer) (rect : Rect)
    (dst : TileLayer) (dstX dstY px py : Int) :
    (copyTileRegion src rect dst dstX dstY).cellAt px py = dst.cellAt px py ∨
    ((src.cellAt (px - dstX + rect.x) (py - dstY + rect.y)).isEmpty = false ∧
      (copyTileRegion src rect dst dstX dstY).cellAt px py =
        src.cellAt (px - dstX + rect.x) (py - dstY + rect.y)) := by
  unfold copyTileRegion
  rcases copyFold_cases src rect dstX dstY rect.points dst px py with
    hleft | ⟨q, _, hqx, hqy, hqne, hqval⟩
  · left; exact hleft
  · right
    have hq1 : q.1 = px - dstX + rect.x := by omega
    have hq2 : q.2 = py - dstY + rect.y := by omega
    rw [hq1, hq2] at hqne hqval
    exact ⟨hqne, hqval⟩

/-- C7: determinism of compilation — `compileInputSet` is a pure
function of the input set, the rule's input region and the
target-layer binding: identical inputs compile to structurally
identical `RuleInputSet` values. -/
theorem compileInputSet_deterministic (s₁ s₂ : InputSet) (r₁ r₂ : Region)
    (b₁ b₂ : List (String × TileLayer))
    (hs : s₁ = s₂) (hr : r₁ = r₂) (hb : b₁ = b₂) :
    compileInputSet s₁ r₁ b₁ = compileInputSet s₂ r₂ b₂ := by
  subst hs; subst hr; subst hb; rfl

/-- Witness for C7: compiling the same one-condition input set twice
over the same region and binding yields equal compiled structures. -/
theorem compileInputSet_deterministic_witness :
    compileInputSet ⟨"s", [⟨"main", [⟨⟨1, 1, [⟨5⟩]⟩, false⟩], []⟩]⟩ [(0, 0)]
        [("main", ⟨1, 1, [⟨5⟩]⟩)] =
      compileInputSet ⟨"s", [⟨"main", [⟨⟨1, 1, [⟨5⟩]⟩, false⟩], []⟩]⟩ [(0, 0)]
        [("main", ⟨1, 1, [⟨5⟩]⟩)] :=
  compileInputSet_deterministic _ _ _ _ _ _ rfl rfl rfl

/-- C6: modulo/offset sampling — every anchor `matchRule` reports lies
in the scan region and on the `modX`/`modY`, `offsetX`/`offsetY`
sub-grid; for an enabled rule the reported anchors are exactly the
sub-grid anchors of the scan region at which some compiled input set
matches; and with `modX = 2`, `offsetX = 1` every matched anchor has an
odd X coordinate (hence no even-X anchor is ever matched). -/
theorem matchRule_subgrid (inputSets : List InputSet) (opts : Options)
    (rule : Rule) (region : Region) (binding : List (String × TileLayer)) :
    (∀ p ∈ matchRule inputSets opts rule region binding,
        p ∈ region ∧ onSubGrid rule.options p = true) ∧
    (rule.options.disabled = false →
      ∀ p, p ∈ matchRule inputSets opts rule region binding ↔
        p ∈ region ∧ onSubGrid rule.options p = true ∧
        (inputSets.map fun s => compileInputSet s rule.inputRegion binding).any
          (fun ris => matchRuleInputSet opts p ris) = true) ∧
    (rule.options.modX = 2 → rule.options.offsetX = 1 →
      ∀ p ∈ matchRule inputSets opts rule region binding, p.1 % 2 = 1) := by
  have hsound : ∀ p ∈ matchRule inputSets opts rule region binding,
      p ∈ region ∧ onSubGrid rule.options p = true := by
    intro p hp
    unfold matchRule at hp
    by_cases hd : rule.options.disabled = true
    · simp [hd] at hp
    · rw [Bool.not_eq_true] at hd
      simp only [hd, Bool.false_eq_true, if_false] at hp
      rw [List.mem_filter] at hp
      exact ⟨hp.1, (Bool.and_eq_true _ _ |>.mp hp.2).1⟩
  refine ⟨hsound, ?_, ?_⟩
  · intro hd p
    unfold matchRule
    simp only [hd, Bool.false_eq_true, if_false]
    rw [List.mem_filter]
    constructor
    · rintro ⟨h1, h2⟩
      rcases Bool.and_eq_true _ _ |>.mp h2 with ⟨h21, h22⟩
      exact ⟨h1, h21, h22⟩
    · rintro ⟨h1, h2, h3⟩
      exact ⟨h1, by rw [h2, h3]; rfl⟩
  · intro hmod hoff p hp
    rcases hsound p hp with ⟨-, hsub⟩
    unfold onSubGrid at hsub
    rcases Bool.and_eq_true _ _ |>.mp hsub with ⟨hx, -⟩
    rw [beq_iff_eq, hmod, hoff] at hx
    omega

/-- Witness for C6: on a 10×10 grid with `modX = 2`, `offsetX = 1`,
the matched anchor `(3, 2)` has odd X, and membership of `(3, 2)` in
the matched set follows from the exactness direction. -/
theorem matchRule_subgrid_witness :
    ((3, 2) : GridPoint).1 % 2 = 1 ∧
    ((3, 2) : GridPoint) ∈ matchRule [⟨"s", [⟨"main", [], []⟩]⟩] {}
      ⟨[(0, 0)], [(0, 0)], { modX := 2, offsetX := 1 }⟩
      ((Rect.mk 0 0 10 10).points) [] := by
  constructor
  · exact (matchRule_subgrid [⟨"s", [⟨"main", [], []⟩]⟩] {}
      ⟨[(0, 0)], [(0, 0)], { modX := 2, offsetX := 1 }⟩
      ((Rect.mk 0 0 10 10).points) []).2.2 rfl rfl (3, 2) (by decide)
  · exact ((matchRule_subgrid [⟨"s", [⟨"main", [], []⟩]⟩] {}
      ⟨[(0, 0)], [(0, 0)], { modX := 2, offsetX := 1 }⟩
      ((Rect.mk 0 0 10 10).points) []).2.1 rfl (3, 2)).mpr (by decide)

theorem matchPositions_oob (opts : Options) (target : TileLayer)
    (anchor : GridPoint) (hout : opts.matchOutsideMap = false) :
    ∀ (ps : List RuleInputLayerPos) (cs : List Cell) (p : RuleInputLayerPos),
      p ∈ ps → target.contains (anchor.1 + p.x) (anchor.2 + p.y) = false →
      matchPositions opts target anchor ps cs = false := by
  intro ps
  induction ps with
  | nil => intro cs p hp; simp at hp
  | cons q ps ih =>
    intro cs p hp hoob
    rcases List.mem_cons.mp hp with rfl | hp'
    · simp only [matchPositions]
      simp [hout, hoob]
    · simp only [matchPositions]
      rw [ih _ p hp' hoob]
      simp

/-- C5: boundary policy — under the default options an out-of-bounds
listed position never matches (the input set containing it fails at
that anchor); with `matchOutsideMap` and `overflowBorder` every read is
resolved to the clamped, nearest in-bounds cell; with `matchOutsideMap`
and `wrapBorder` every read is resolved modulo the map dimensions. -/
theorem boundaryPolicy (opts : Options) (target : TileLayer)
    (anchor : GridPoint) (ps : List RuleInputLayerPos) (cs : List Cell)
    (p : RuleInputLayerPos) (x y : Int) :
    (opts.matchOutsideMap = false → p ∈ ps →
      target.contains (anchor.1 + p.x) (anchor.2 + p.y) = false →
      matchPositions opts target anchor ps cs = false) ∧
    (opts.matchOutsideMap = true → opts.overflowBorder = true →
      opts.wrapBorder = false →
      getCellFor opts target x y =
        target.cellAt (clampCoord x target.width) (clampCoord y target.height) ∧
      (0 < target.width → 0 < target.height →
        target.contains (clampCoord x target.width) (clampCoord y target.height)
          = true)) ∧
    (opts.matchOutsideMap = true → opts.wrapBorder = true →
      getCellFor opts target x y =
        target.cellAt (x % (target.width : Int)) (y % (target.height : Int)) ∧
      (0 < target.width → 0 < target.height →
        target.contains (x % (target.width : Int)) (y % (target.height : Int))
          = true)) := by
  refine ⟨?_, ?_, ?_⟩
  · intro hout hp hoob
    exact matchPositions_oob opts target anchor hout ps cs p hp hoob
  · intro hm ho hw
    constructor
    · simp [getCellFor, hm, ho, hw]
    · intro hwid hhei
      rw [contains_iff]
      unfold clampCoord
      omega
  · intro hm hw
    constructor
    · simp [getCellFor, hm, hw]
    · intro hwid hhei
      rw [contains_iff]
      have hw0 : ((target.width : Int)) ≠ 0 := by omega
      have hh0 : ((target.height : Int)) ≠ 0 := by omega
      have h1 := Int.emod_nonneg x hw0
      have h2 := Int.emod_lt_of_pos x (show (0 : Int) < target.width by omega)
      have h3 := Int.emod_nonneg y hh0
      have h4 := Int.emod_lt_of_pos y (show (0 : Int) < target.height by omega)
      exact ⟨h1, h2, h3, h4⟩

/-- Witness for C5, the spec's 4×4 corner scenario: at the corner
anchor `(0, 0)` a listed position `(-1, -1)` is out of bounds, so the
default policy fails the input set; with overflow the read of
`(-1, -1)` clamps to the corner cell (tile 1); with wrap it resolves to
the opposite corner cell (tile 16). -/
theorem boundaryPolicy_witness :
    matchPositions {}
      ⟨4, 4, [⟨1⟩, ⟨2⟩, ⟨3⟩, ⟨4⟩, ⟨5⟩, ⟨6⟩, ⟨7⟩, ⟨8⟩,
              ⟨9⟩, ⟨10⟩, ⟨11⟩, ⟨12⟩, ⟨13⟩, ⟨14⟩, ⟨15⟩, ⟨16⟩]⟩
      (0, 0) [⟨-1, -1, 0, 0⟩] [] = false ∧
    getCellFor { matchOutsideMap := true, overflowBorder := true }
      ⟨4, 4, [⟨1⟩, ⟨2⟩, ⟨3⟩, ⟨4⟩, ⟨5⟩, ⟨6⟩, ⟨7⟩, ⟨8⟩,
              ⟨9⟩, ⟨10⟩, ⟨11⟩, ⟨12⟩, ⟨13⟩, ⟨14⟩, ⟨15⟩, ⟨16⟩]⟩
      (-1) (-1) = ⟨1⟩ ∧
    getCellFor { matchOutsideMap := true, wrapBorder := true }
      ⟨4, 4, [⟨1⟩, ⟨2⟩, ⟨3⟩, ⟨4⟩, ⟨5⟩, ⟨6⟩, ⟨7⟩, ⟨8⟩,
              ⟨9⟩, ⟨10⟩, ⟨11⟩, ⟨12⟩, ⟨13⟩, ⟨14⟩, ⟨15⟩, ⟨16⟩]⟩
      (-1) (-1) = ⟨16⟩ := by
  refine ⟨?_, ?_, ?_⟩
  · exact (boundaryPolicy {}
      ⟨4, 4, [⟨1⟩, ⟨2⟩, ⟨3⟩, ⟨4⟩, ⟨5⟩, ⟨6⟩, ⟨7⟩, ⟨8⟩,
              ⟨9⟩, ⟨10⟩, ⟨11⟩, ⟨12⟩, ⟨13⟩, ⟨14⟩, ⟨15⟩, ⟨16⟩]⟩
      (0, 0) [⟨-1, -1, 0, 0⟩] [] ⟨-1, -1, 0, 0⟩ 0 0).1 rfl
      (List.mem_singleton.mpr rfl) (by decide)
  · refine Eq.trans ?_ (show (⟨4, 4, [⟨1⟩, ⟨2⟩, ⟨3⟩, ⟨4⟩, ⟨5⟩, ⟨6⟩, ⟨7⟩, ⟨8⟩,
              ⟨9⟩, ⟨10⟩, ⟨11⟩, ⟨12⟩, ⟨13⟩, ⟨14⟩, ⟨15⟩, ⟨16⟩]⟩ : TileLayer).cellAt
        (clampCoord (-1) 4) (clampCoord (-1) 4) = ⟨1⟩ by decide)
    exact ((boundaryPolicy { matchOutsideMap := true, overflowBorder := true }
      ⟨4, 4, [⟨1⟩, ⟨2⟩, ⟨3⟩, ⟨4⟩, ⟨5⟩, ⟨6⟩, ⟨7⟩, ⟨8⟩,
              ⟨9⟩, ⟨10⟩, ⟨11⟩, ⟨12⟩, ⟨13⟩, ⟨14⟩, ⟨15⟩, ⟨16⟩]⟩
      (0, 0) [] [] ⟨0, 0, 0, 0⟩ (-1) (-1)).2.1 rfl rfl rfl).1
  · refine Eq.trans ?_ (show (⟨4, 4, [⟨1⟩, ⟨2⟩, ⟨3⟩, ⟨4⟩, ⟨5⟩, ⟨6⟩, ⟨7⟩, ⟨8⟩,
              ⟨9⟩, ⟨10⟩, ⟨11⟩, ⟨12⟩, ⟨13⟩, ⟨14⟩, ⟨15⟩, ⟨16⟩]⟩ : TileLayer).cellAt
        ((-1) % (4 : Int)) ((-1) % (4 : Int)) = ⟨16⟩ by decide)
    exact ((boundaryPolicy { matchOutsideMap := true, wrapBorder := true }
      ⟨4, 4, [⟨1⟩, ⟨2⟩, ⟨3⟩, ⟨4⟩, ⟨5⟩, ⟨6⟩, ⟨7⟩, ⟨8⟩,
              ⟨9⟩, ⟨10⟩, ⟨11⟩, ⟨12⟩, ⟨13⟩, ⟨14⟩, ⟨15⟩, ⟨16⟩]⟩
      (0, 0) [] [] ⟨0, 0, 0, 0⟩ (-1) (-1)).2.2 rfl rfl).1

theorem matchEntry_iff (opts : Options) (target : TileLayer) (anchor : GridPoint)
    (p : RuleInputLayerPos) (cs : List Cell) :
    ((if !opts.matchOutsideMap &&
        !target.contains (anchor.1 + p.x) (anchor.2 + p.y) then false
      else
        ((cs.take p.anyCount).isEmpty ||
          (cs.take p.anyCount).contains
            (getCellFor opts target (anchor.1 + p.x) (anchor.2 + p.y))) &&
        !(((cs.drop p.anyCount).take p.noneCount).contains
            (getCellFor opts target (anchor.1 + p.x) (anchor.2 + p.y)))) = true) ↔
    SatisfiesEntry opts target anchor
      ((p.x, p.y), cs.take p.anyCount, (cs.drop p.anyCount).take p.noneCount) := by
  unfold SatisfiesEntry
  by_cases hmo : opts.matchOutsideMap = true
  · by_cases hA : cs.take p.anyCount = []
    · simp [hmo, hA]
    · simp [hmo, hA]
  · rw [Bool.not_eq_true] at hmo
    by_cases hc : target.contains (anchor.1 + p.x) (anchor.2 + p.y) = true
    · by_cases hA : cs.take p.anyCount = []
      · simp [hmo, hc, hA]
      · simp [hmo, hc, hA]
    · rw [Bool.not_eq_true] at hc
      simp [hmo, hc]

theorem matchPositions_cons (opts : Options) (target : TileLayer)
    (anchor : GridPoint) (p : RuleInputLayerPos) (ps : List RuleInputLayerPos)
    (cs : List Cell) :
    matchPositions opts target anchor (p :: ps) cs =
      ((if !opts.matchOutsideMap &&
          !target.contains (anchor.1 + p.x) (anchor.2 + p.y) then false
        else
          ((cs.take p.anyCount).isEmpty ||
            (cs.take p.anyCount).contains
              (getCellFor opts target (anchor.1 + p.x) (anchor.2 + p.y))) &&
          !(((cs.drop p.anyCount).take p.noneCount).contains
              (getCellFor opts target (anchor.1 + p.x) (anchor.2 + p.y)))) &&
       matchPositions opts target anchor ps
         ((cs.drop p.anyCount).drop p.noneCount)) := rfl

theorem unpackPositions_cons (p : RuleInputLayerPos)
    (ps : List RuleInputLayerPos) (cs : List Cell) :
    unpackPositions (p :: ps) cs =
      ((p.x, p.y), cs.take p.anyCount, (cs.drop p.anyCount).take p.noneCount) ::
        unpackPositions ps ((cs.drop p.anyCount).drop p.noneCount) := rfl

theorem matchPositions_iff (opts : Options) (target : TileLayer)
    (anchor : GridPoint) :
    ∀ (ps : List RuleInputLayerPos) (cs : List Cell),
      matchPositions opts target anchor ps cs = true ↔
      ∀ e ∈ unpackPositions ps cs, SatisfiesEntry opts target anchor e := by
  intro ps
  induction ps with
  | nil => intro cs; simp [matchPositions, unpackPositions]
  | cons p ps ih =>
    intro cs
    rw [matchPositions_cons, Bool.and_eq_true, ih, unpackPositions_cons]
    constructor
    · rintro ⟨h1, h2⟩ e he
      rcases List.mem_cons.mp he with rfl | he
      · exact (matchEntry_iff opts target anchor p cs).mp h1
      · exact h2 e he
    · intro h
      refine ⟨(matchEntry_iff opts target anchor p cs).mpr
        (h _ (List.mem_cons_self _ _)), ?_⟩
      exact fun e he => h e (List.mem_cons_of_mem _ he)

theorem matchLayers_iff (opts : Options) (anchor : GridPoint) :
    ∀ (ls : List RuleInputLayer) (ps : List RuleInputLayerPos) (cs : List Cell),
      matchLayers opts anchor ls ps cs = true ↔
      ∀ le ∈ unpackLayers ls ps cs, ∀ e ∈ le.2,
        SatisfiesEntry opts le.1 anchor e := by
  intro ls
  induction ls with
  | nil => intro ps cs; simp [matchLayers, unpackLayers]
  | cons l ls ih =>
    intro ps cs
    simp only [matchLayers, unpackLayers, Bool.and_eq_true, List.mem_cons]
    rw [ih, matchPositions_iff]
    constructor
    · rintro ⟨h1, h2⟩ le hle
      rcases hle with rfl | hle
      · exact h1
      · exact h2 le hle
    · intro h
      exact ⟨h _ (Or.inl rfl), fun le hle => h le (Or.inr hle)⟩

theorem matchRuleInputSet_iff (opts : Options) (anchor : GridPoint)
    (ris : RuleInputSet) :
    matchRuleInputSet opts anchor ris = true ↔
      SatisfiesInputSet opts anchor ris :=
  matchLayers_iff opts anchor ris.layers ris.positions ris.cells

/-- C2 (amended): completeness of the Matcher — for every rule whose
resolved options have `skipChance = 0`, `noOverlappingOutput` unset and
`disabled` unset, every anchor of the scan region on the rule's
mod/offset sub-grid at which some compiled input set of the rule is
fully satisfied is reported as matched by `matchRule`. -/
theorem matchRule_complete (inputSets : List InputSet) (opts : Options)
    (rule : Rule) (region : Region) (binding : List (String × TileLayer))
    (p : GridPoint) (s : InputSet)
    (_hskip : rule.options.skipChance = 0)
    (_hov : rule.options.noOverlappingOutput = false)
    (hdis : rule.options.disabled = false)
    (hp : p ∈ region) (hsub : onSubGrid rule.options p = true)
    (hs : s ∈ inputSets)
    (hsat : SatisfiesInputSet opts p
      (compileInputSet s rule.inputRegion binding)) :
    p ∈ matchRule inputSets opts rule region binding := by
  unfold matchRule
  simp only [hdis, Bool.false_eq_true, if_false]
  rw [List.mem_filter]
  refine ⟨hp, ?_⟩
  rw [Bool.and_eq_true]
  refine ⟨hsub, ?_⟩
  rw [List.any_eq_true]
  exact ⟨compileInputSet s rule.inputRegion binding,
    List.mem_map.mpr ⟨s, hs, rfl⟩,
    (matchRuleInputSet_iff opts p _).mpr hsat⟩

/-- Witness for C2: on a 3×3 target whose centre cell is tile 5, the
centre anchor satisfies the one-cell input pattern and is reported by
`matchRule`. -/
theorem matchRule_complete_witness :
    ((1, 1) : GridPoint) ∈
      matchRule [⟨"s", [⟨"main", [⟨⟨1, 1, [⟨5⟩]⟩, false⟩], []⟩]⟩] {}
        ⟨[(0, 0)], [(0, 0)], {}⟩ ((Rect.mk 0 0 3 3).points)
        [("main", ⟨3, 3, [⟨1⟩, ⟨2⟩, ⟨3⟩, ⟨4⟩, ⟨5⟩, ⟨6⟩, ⟨7⟩, ⟨8⟩, ⟨9⟩]⟩)] :=
  matchRule_complete [⟨"s", [⟨"main", [⟨⟨1, 1, [⟨5⟩]⟩, false⟩], []⟩]⟩] {}
    ⟨[(0, 0)], [(0, 0)], {}⟩ ((Rect.mk 0 0 3 3).points)
    [("main", ⟨3, 3, [⟨1⟩, ⟨2⟩, ⟨3⟩, ⟨4⟩, ⟨5⟩, ⟨6⟩, ⟨7⟩, ⟨8⟩, ⟨9⟩]⟩)]
    (1, 1) ⟨"s", [⟨"main", [⟨⟨1, 1, [⟨5⟩]⟩, false⟩], []⟩]⟩
    rfl rfl rfl (by decide) (by decide) (by decide) (by decide)

/-- Counterexample to C2 as stated: a disabled rule whose resolved
options have `skipChance = 0` and `noOverlappingOutput` unset has a
fully satisfied input set at an in-region, on-sub-grid anchor, yet
`matchRule` reports no anchor at all — the claim omits the `disabled`
option from its hypotheses. -/
theorem matchRule_complete_counterexample :
    (Rule.mk [(0, 0)] [(0, 0)] { disabled := true }).options.skipChance = 0 ∧
    (Rule.mk [(0, 0)] [(0, 0)]
      { disabled := true }).options.noOverlappingOutput = false ∧
    ((1, 1) : GridPoint) ∈ ((Rect.mk 0 0 3 3).points) ∧
    onSubGrid (Rule.mk [(0, 0)] [(0, 0)] { disabled := true }).options
      (1, 1) = true ∧
    SatisfiesInputSet {} (1, 1)
      (compileInputSet ⟨"s", [⟨"main", [⟨⟨1, 1, [⟨5⟩]⟩, false⟩], []⟩]⟩ [(0, 0)]
        [("main", ⟨3, 3, [⟨1⟩, ⟨2⟩, ⟨3⟩, ⟨4⟩, ⟨5⟩, ⟨6⟩, ⟨7⟩, ⟨8⟩, ⟨9⟩]⟩)]) ∧
    matchRule [⟨"s", [⟨"main", [⟨⟨1, 1, [⟨5⟩]⟩, false⟩], []⟩]⟩] {}
      (Rule.mk [(0, 0)] [(0, 0)] { disabled := true })
      ((Rect.mk 0 0 3 3).points)
      [("main", ⟨3, 3, [⟨1⟩, ⟨2⟩, ⟨3⟩, ⟨4⟩, ⟨5⟩, ⟨6⟩, ⟨7⟩, ⟨8⟩, ⟨9⟩]⟩)] = [] :=
  ⟨rfl, rfl, by decide, by decide, by decide, by decide⟩

theorem applyRuleAt_state (outputSets : List OutputSet) (rule : Rule)
    (anchor : GridPoint) (applied : Region) (st : ScanState) :
    (applyRuleAt outputSets rule anchor applied st).2.2.targetMap = st.targetMap ∧
    (applyRuleAt outputSets rule anchor applied st).2.2.error = st.error := by
  unfold applyRuleAt
  dsimp only
  split
  · exact ⟨rfl, rfl⟩
  · split
    · exact ⟨rfl, rfl⟩
    · exact ⟨rfl, rfl⟩

theorem applyAnchors_cons (outputSets : List OutputSet) (rule : Rule)
    (a : GridPoint) (anchors : List GridPoint) (applied : Region)
    (st : ScanState) :
    applyAnchors outputSets rule (a :: anchors) applied st =
      ((if (applyRuleAt outputSets rule a applied st).1 then
          a :: (applyAnchors outputSets rule anchors
            (applyRuleAt outputSets rule a applied st).2.1
            (applyRuleAt outputSets rule a applied st).2.2).1
        else
          (applyAnchors outputSets rule anchors
            (applyRuleAt outputSets rule a applied st).2.1
            (applyRuleAt outputSets rule a applied st).2.2).1),
       (applyAnchors outputSets rule anchors
         (applyRuleAt outputSets rule a applied st).2.1
         (applyRuleAt outputSets rule a applied st).2.2).2.1,
       (applyAnchors outputSets rule anchors
         (applyRuleAt outputSets rule a applied st).2.1
         (applyRuleAt outputSets rule a applied st).2.2).2.2) := rfl

theorem applyAnchors_state (outputSets : List OutputSet) (rule : Rule) :
    ∀ (anchors : List GridPoint) (applied : Region) (st : ScanState),
      (applyAnchors outputSets rule anchors applied st).2.2.targetMap
        = st.targetMap ∧
      (applyAnchors outputSets rule anchors applied st).2.2.error = st.error := by
  intro anchors
  induction anchors with
  | nil => intro applied st; exact ⟨rfl, rfl⟩
  | cons a anchors ih =>
    intro applied st
    have h1 := applyRuleAt_state outputSets rule a applied st
    have h2 := ih (applyRuleAt outputSets rule a applied st).2.1
      (applyRuleAt outputSets rule a applied st).2.2
    rw [applyAnchors_cons]
    exact ⟨h2.1.trans h1.1, h2.2.trans h1.2⟩

theorem processRule_state (m : AutoMapperModel) (region : Region)
    (st : ScanState) (rule : Rule) :
    (processRule m region st rule).1.targetMap = st.targetMap ∧
    (processRule m region st rule).1.error = st.error := by
  unfold processRule
  split
  · exact ⟨rfl, rfl⟩
  · exact applyAnchors_state m.outputSets rule
      (matchRule m.inputSets m.options rule region st.context.inputLayers) [] st

theorem runRules_cons (m : AutoMapperModel) (region : Region) (r : Rule)
    (rs : List Rule) (st : ScanState) :
    runRules m region (r :: rs) st =
      ((runRules m region rs (processRule m region st r).1).1,
       (processRule m region st r).2 ++
         (runRules m region rs (processRule m region st r).1).2) := rfl

theorem runRules_state (m : AutoMapperModel) (region : Region) :
    ∀ (rs : List Rule) (st : ScanState),
      (runRules m region rs st).1.targetMap = st.targetMap ∧
      (runRules m region rs st).1.error = st.error := by
  intro rs
  induction rs with
  | nil => intro st; exact ⟨rfl, rfl⟩
  | cons r rs ih =>
    intro st
    have h1 := processRule_state m region st r
    have h2 := ih (processRule m region st r).1
    rw [runRules_cons]
    exact ⟨h2.1.trans h1.1, h2.2.trans h1.2⟩

/-- C1: frame effect — neither `prepareAutoMap` nor `autoMap` mutates
the target map: all staged edits live in the `AutoMappingContext`, and
the target map (all of its layers) is unchanged after both calls
return. -/
theorem autoMap_frame (m : AutoMapperModel) (region : Region) (st : ScanState) :
    (prepareAutoMap m st).targetMap = st.targetMap ∧
    (autoMap m region (prepareAutoMap m st)).1.targetMap = st.targetMap := by
  refine ⟨rfl, ?_⟩
  exact (runRules_state m region m.rules (prepareAutoMap m st)).1

theorem lookupLayer_of_find?_none (ls : List (String × TileLayer))
    (name : String) (h : ls.find? (fun e => e.1 == name) = none) :
    lookupLayer ls name = dummy := by
  unfold lookupLayer
  rw [h]

theorem lookupLayer_cons (e : String × TileLayer)
    (ls : List (String × TileLayer)) (name : String) :
    lookupLayer (e :: ls) name =
      if e.1 = name then e.2 else lookupLayer ls name := by
  unfold lookupLayer
  rw [List.find?_cons]
  by_cases h : e.1 = name
  · simp [h]
  · have hb : (e.1 == name) = false := by
      rw [beq_eq_false_iff_ne]; exact h
    simp [hb, h]

theorem lookupLayer_map_self (tm : TargetMap) (name : String)
    (hmiss : tm.layers.find? (fun e => e.1 == name) = none) :
    ∀ (names : List String),
      lookupLayer (names.map fun n => (n, lookupLayer tm.layers n)) name
        = dummy := by
  intro names
  induction names with
  | nil => rfl
  | cons n ns ih =>
    rw [List.map_cons, lookupLayer_cons]
    by_cases hn : n = name
    · subst hn
      rw [if_pos rfl]
      exact lookupLayer_of_find?_none tm.layers n hmiss
    · rw [if_neg hn]
      exact ih

theorem modifyClone_inputLayers (ctx : AutoMappingContext) (tm : TargetMap)
    (name : String) (f : TileLayer → TileLayer) :
    (ctx.modifyClone tm name f).inputLayers = ctx.inputLayers := by
  unfold AutoMappingContext.modifyClone
  split <;> rfl

theorem foldl_inputLayers {α : Type} (f : AutoMappingContext → α → AutoMappingContext)
    (h : ∀ c a, (f c a).inputLayers = c.inputLayers) :
    ∀ (l : List α) (c : AutoMappingContext),
      (l.foldl f c).inputLayers = c.inputLayers := by
  intro l
  induction l with
  | nil => intro c; rfl
  | cons a l ih => intro c; rw [List.foldl_cons, ih, h]

theorem bindNewLayer_inputLayers (tm : TargetMap) (c : AutoMappingContext)
    (n : String) : (bindNewLayer tm c n).inputLayers = c.inputLayers := by
  unfold bindNewLayer
  split
  · rfl
  · split
    · rfl
    · rfl

theorem clearLayer_inputLayers (tm : TargetMap) (c : AutoMappingContext)
    (n : String) : (clearLayer tm c n).inputLayers = c.inputLayers :=
  modifyClone_inputLayers c tm n _

theorem prepareAutoMap_inputLayers (m : AutoMapperModel) (st : ScanState) :
    (prepareAutoMap m st).context.inputLayers =
      (m.inputSets.flatMap fun s => s.layers.map (·.layerName)).map
        (fun n => (n, lookupLayer st.targetMap.layers n)) := by
  unfold prepareAutoMap
  dsimp only
  by_cases hdel : m.options.deleteTiles = true
  · rw [if_pos hdel]
    rw [foldl_inputLayers (clearLayer st.targetMap)
      (clearLayer_inputLayers st.targetMap)]
    rw [foldl_inputLayers (bindNewLayer st.targetMap)
      (bindNewLayer_inputLayers st.targetMap)]
  · rw [if_neg hdel]
    rw [foldl_inputLayers (bindNewLayer st.targetMap)
      (bindNewLayer_inputLayers st.targetMap)]

theorem dummy_cellAt (x y : Int) : dummy.cellAt x y = Cell.empty := by
  unfold TileLayer.cellAt
  have h : dummy.contains x y = false := by
    rw [Bool.eq_false_iff]
    intro h
    rw [contains_iff] at h
    simp only [dummy] at h
    omega
  rw [h]
  simp

theorem dummy_getCellFor (opts : Options) (x y : Int) :
    getCellFor opts dummy x y = Cell.empty := by
  unfold getCellFor
  split
  · exact dummy_cellAt _ _
  · split
    · exact dummy_cellAt _ _
    · exact dummy_cellAt _ _

/-- C10: missing-input-layer totality — an input layer name with no
tile layer in the target map at `prepareAutoMap` time is bound to the
empty `dummy` placeholder layer instead of failing; every read of
`dummy` resolves to the empty cell under every boundary policy; and a
listed position carrying a positive "any" condition made of non-empty
cells can never match against `dummy` (the matcher totally returns
`false` there). -/
theorem missingInputLayer_dummy (m : AutoMapperModel) (st : ScanState)
    (name : String)
    (hmiss : st.targetMap.layers.find? (fun e => e.1 == name) = none)
    (opts : Options) (anchor : GridPoint) (x y : Int)
    (p : RuleInputLayerPos) (ps : List RuleInputLayerPos) (cs : List Cell)
    (hany : cs.take p.anyCount ≠ [])
    (hne : ∀ c ∈ cs.take p.anyCount, c.isEmpty = false) :
    lookupLayer (prepareAutoMap m st).context.inputLayers name = dummy ∧
    getCellFor opts dummy x y = Cell.empty ∧
    matchPositions opts dummy anchor (p :: ps) cs = false := by
  refine ⟨?_, dummy_getCellFor opts x y, ?_⟩
  · rw [prepareAutoMap_inputLayers]
    exact lookupLayer_map_self st.targetMap name hmiss _
  · rw [matchPositions_cons]
    have hcell : getCellFor opts dummy (anchor.1 + p.x) (anchor.2 + p.y)
        = Cell.empty := dummy_getCellFor _ _ _
    rw [hcell]
    have hcont : dummy.contains (anchor.1 + p.x) (anchor.2 + p.y) = false := by
      rw [Bool.eq_false_iff]
      intro h
      rw [contains_iff] at h
      simp only [dummy] at h
      omega
    have hA : (cs.take p.anyCount).isEmpty = false := by
      rw [Bool.eq_false_iff]
      intro h
      exact hany (List.isEmpty_iff.mp h)
    have hB : (cs.take p.anyCount).contains Cell.empty = false := by
      rw [Bool.eq_false_iff]
      intro hc
      have hmem : Cell.empty ∈ cs.take p.anyCount := by simpa using hc
      have := hne Cell.empty hmem
      simp [Cell.isEmpty, Cell.empty] at this
    by_cases hmo : opts.matchOutsideMap = true
    · rw [if_neg (by simp [hmo, hcont])]
      rw [hA, hB]
      rfl
    · rw [Bool.not_eq_true] at hmo
      rw [if_pos (by simp [hmo, hcont])]
      rfl

/-- Witness for C10: a target map with only a "main" layer binds the
missing "ghost" input layer to `dummy`; a positive one-cell "any"
condition on tile 7 cannot match there. -/
theorem missingInputLayer_dummy_witness :
    lookupLayer (prepareAutoMap
      ⟨[⟨"s", [⟨"ghost", [⟨⟨1, 1, [⟨7⟩]⟩, false⟩], []⟩]⟩], [], [], {}⟩
      ⟨⟨[("main", ⟨1, 1, [⟨3⟩]⟩)]⟩, {}, 0, none⟩).context.inputLayers "ghost"
      = dummy ∧
    getCellFor {} dummy 0 0 = Cell.empty ∧
    matchPositions {} dummy (0, 0) [⟨0, 0, 1, 0⟩] [⟨7⟩] = false := by
  refine ⟨?_, ?_, ?_⟩
  · exact (missingInputLayer_dummy
      ⟨[⟨"s", [⟨"ghost", [⟨⟨1, 1, [⟨7⟩]⟩, false⟩], []⟩]⟩], [], [], {}⟩
      ⟨⟨[("main", ⟨1, 1, [⟨3⟩]⟩)]⟩, {}, 0, none⟩ "ghost" (by decide)
      {} (0, 0) 0 0 ⟨0, 0, 1, 0⟩ [] [⟨7⟩] (by decide) (by decide)).1
  · exact (missingInputLayer_dummy
      ⟨[⟨"s", [⟨"ghost", [⟨⟨1, 1, [⟨7⟩]⟩, false⟩], []⟩]⟩], [], [], {}⟩
      ⟨⟨[("main", ⟨1, 1, [⟨3⟩]⟩)]⟩, {}, 0, none⟩ "ghost" (by decide)
      {} (0, 0) 0 0 ⟨0, 0, 1, 0⟩ [] [⟨7⟩] (by decide) (by decide)).2.1
  · exact (missingInputLayer_dummy
      ⟨[⟨"s", [⟨"ghost", [⟨⟨1, 1, [⟨7⟩]⟩, false⟩], []⟩]⟩], [], [], {}⟩
      ⟨⟨[("main", ⟨1, 1, [⟨3⟩]⟩)]⟩, {}, 0, none⟩ "ghost" (by decide)
      {} (0, 0) 0 0 ⟨0, 0, 1, 0⟩ [] [⟨7⟩] (by decide) (by decide)).2.2

theorem updateAssoc_keys (k : String) (v : TileLayer) :
    ∀ (m : List (String × TileLayer)),
      (updateAssoc m k v).map (·.1) = m.map (·.1) := by
  intro m
  induction m with
  | nil => rfl
  | cons e es ih =>
    unfold updateAssoc
    by_cases h : (e.1 == k) = true
    · rw [if_pos h, List.map_cons, List.map_cons]
      rw [beq_iff_eq] at h
      rw [h]
    · rw [if_neg h, List.map_cons, List.map_cons, ih]

theorem modifyClone_keys (ctx : AutoMappingContext) (tm : TargetMap)
    (name : String) (f : TileLayer → TileLayer) :
    (mappingKeys (ctx.modifyClone tm name f) = mappingKeys ctx ∧
      name ∈ mappingKeys ctx) ∨
    (mappingKeys (ctx.modifyClone tm name f) = name :: mappingKeys ctx ∧
      name ∉ mappingKeys ctx) := by
  unfold AutoMappingContext.modifyClone
  split
  case h_1 e heq =>
    left
    constructor
    · exact updateAssoc_keys name (f e.2) ctx.originalToOutputLayerMapping
    · have hmem := List.mem_of_find?_eq_some heq
      have hp := List.find?_some heq
      rw [beq_iff_eq] at hp
      unfold mappingKeys
      rw [List.mem_map]
      exact ⟨e, hmem, hp⟩
  case h_2 heq =>
    right
    refine ⟨rfl, ?_⟩
    intro hmem
    rw [List.find?_eq_none] at heq
    unfold mappingKeys at hmem
    rw [List.mem_map] at hmem
    obtain ⟨a, ha, hkey⟩ := hmem
    exact heq a ha (beq_iff_eq.mpr hkey)

theorem modifyClone_nodup (ctx : AutoMappingContext) (tm : TargetMap)
    (name : String) (f : TileLayer → TileLayer)
    (h : (mappingKeys ctx).Nodup) :
    (mappingKeys (ctx.modifyClone tm name f)).Nodup := by
  rcases modifyClone_keys ctx tm name f with ⟨h1, -⟩ | ⟨h1, h2⟩
  · rw [h1]; exact h
  · rw [h1]; exact List.nodup_cons.mpr ⟨h2, h⟩

theorem modifyClone_mem_keys (ctx : AutoMappingContext) (tm : TargetMap)
    (name : String) (f : TileLayer → TileLayer) :
    name ∈ mappingKeys (ctx.modifyClone tm name f) := by
  rcases modifyClone_keys ctx tm name f with ⟨h1, h2⟩ | ⟨h1, -⟩
  · rw [h1]; exact h2
  · rw [h1]; exact List.mem_cons_self _ _

theorem modifyClone_keys_of_mem (ctx : AutoMappingContext) (tm : TargetMap)
    (name : String) (g : TileLayer → TileLayer)
    (h : name ∈ mappingKeys ctx) :
    mappingKeys (ctx.modifyClone tm name g) = mappingKeys ctx := by
  rcases modifyClone_keys ctx tm name g with ⟨h1, -⟩ | ⟨-, h2⟩
  · exact h1
  · exact absurd h h2

theorem foldl_preserves_nodup {α : Type}
    (f : AutoMappingContext → α → AutoMappingContext)
    (h : ∀ c a, (mappingKeys c).Nodup → (mappingKeys (f c a)).Nodup) :
    ∀ (l : List α) (c : AutoMappingContext),
      (mappingKeys c).Nodup → (mappingKeys (l.foldl f c)).Nodup := by
  intro l
  induction l with
  | nil => intro c hc; exact hc
  | cons a l ih => intro c hc; rw [List.foldl_cons]; exact ih _ (h c a hc)

theorem copyMapRegion_nodup (region : Region) (off : GridPoint)
    (ruleOutput : OutputSet) (tm : TargetMap) (ctx : AutoMappingContext)
    (h : (mappingKeys ctx).Nodup) :
    (mappingKeys (copyMapRegion region off ruleOutput tm ctx)).Nodup := by
  unfold copyMapRegion
  dsimp only
  apply foldl_preserves_nodup
  · intro c a hc
    exact hc
  · apply foldl_preserves_nodup
    · intro c a hc
      exact modifyClone_nodup c tm a.2 _ hc
    · exact h

theorem applyRuleAt_nodup (outputSets : List OutputSet) (rule : Rule)
    (anchor : GridPoint) (applied : Region) (st : ScanState)
    (h : (mappingKeys st.context).Nodup) :
    (mappingKeys
      (applyRuleAt outputSets rule anchor applied st).2.2.context).Nodup := by
  unfold applyRuleAt
  dsimp only
  split
  · exact h
  · split
    · exact h
    · exact copyMapRegion_nodup _ _ _ _ _ h

theorem applyAnchors_nodup (outputSets : List OutputSet) (rule : Rule) :
    ∀ (anchors : List GridPoint) (applied : Region) (st : ScanState),
      (mappingKeys st.context).Nodup →
      (mappingKeys
        (applyAnchors outputSets rule anchors applied st).2.2.context).Nodup := by
  intro anchors
  induction anchors with
  | nil => intro applied st h; exact h
  | cons a anchors ih =>
    intro applied st h
    rw [applyAnchors_cons]
    exact ih _ _ (applyRuleAt_nodup outputSets rule a applied st h)

theorem processRule_nodup (m : AutoMapperModel) (region : Region)
    (st : ScanState) (rule : Rule)
    (h : (mappingKeys st.context).Nodup) :
    (mappingKeys (processRule m region st rule).1.context).Nodup := by
  unfold processRule
  split
  · exact h
  · exact applyAnchors_nodup m.outputSets rule _ [] st h

theorem runRules_nodup (m : AutoMapperModel) (region : Region) :
    ∀ (rs : List Rule) (st : ScanState),
      (mappingKeys st.context).Nodup →
      (mappingKeys (runRules m region rs st).1.context).Nodup := by
  intro rs
  induction rs with
  | nil => intro st h; exact h
  | cons r rs ih =>
    intro st h
    rw [runRules_cons]
    exact ih _ (processRule_nodup m region st r h)

theorem bindNewLayer_nodup (tm : TargetMap) (c : AutoMappingContext)
    (n : String) (hc : (mappingKeys c).Nodup) :
    (mappingKeys (bindNewLayer tm c n)).Nodup := by
  unfold bindNewLayer
  split
  · exact hc
  · split
    · exact hc
    · exact hc

theorem prepareAutoMap_nodup (m : AutoMapperModel) (st : ScanState)
    (h : (mappingKeys st.context).Nodup) :
    (mappingKeys (prepareAutoMap m st).context).Nodup := by
  unfold prepareAutoMap
  dsimp only
  split
  · apply foldl_preserves_nodup
    · intro c a hc
      exact modifyClone_nodup c st.targetMap a _ hc
    · apply foldl_preserves_nodup
      · intro c a hc
        exact bindNewLayer_nodup st.targetMap c a hc
      · exact h
  · apply foldl_preserves_nodup
    · intro c a hc
      exact bindNewLayer_nodup st.targetMap c a hc
    · exact h

/-- C8: exactly-once clone-on-write — the original-layer → clone table
of the context keeps distinct keys throughout a whole prepare/autoMap
session (at most one clone per original layer), and a second write to
an already cloned layer reuses the existing clone: it adds no new
table entry. -/
theorem cloneOnWrite_unique (m : AutoMapperModel) (region : Region)
    (st : ScanState) (h : (mappingKeys st.context).Nodup) :
    (mappingKeys (autoMap m region (prepareAutoMap m st)).1.context).Nodup ∧
    ∀ (ctx : AutoMappingContext) (tm : TargetMap) (name : String)
      (f g : TileLayer → TileLayer),
      mappingKeys ((ctx.modifyClone tm name f).modifyClone tm name g) =
        mappingKeys (ctx.modifyClone tm name f) := by
  constructor
  · exact runRules_nodup m region m.rules (prepareAutoMap m st)
      (prepareAutoMap_nodup m st h)
  · intro ctx tm name f g
    exact modifyClone_keys_of_mem _ tm name g (modifyClone_mem_keys ctx tm name f)

/-- Witness for C8: a one-rule scan over a 2×2 target leaves a
duplicate-free clone table, and a repeated write to layer "out" of an
empty context does not create a second table entry. -/
theorem cloneOnWrite_unique_witness :
    (mappingKeys (autoMap
      ⟨[⟨"s", [⟨"main", [⟨⟨1, 1, [⟨1⟩]⟩, false⟩], []⟩]⟩],
       [⟨"o", [(⟨1, 1, [⟨2⟩]⟩, "out")], []⟩],
       [⟨[(0, 0)], [(0, 0)], {}⟩], {}⟩
      ((Rect.mk 0 0 2 2).points)
      (prepareAutoMap
        ⟨[⟨"s", [⟨"main", [⟨⟨1, 1, [⟨1⟩]⟩, false⟩], []⟩]⟩],
         [⟨"o", [(⟨1, 1, [⟨2⟩]⟩, "out")], []⟩],
         [⟨[(0, 0)], [(0, 0)], {}⟩], {}⟩
        ⟨⟨[("main", ⟨2, 2, [⟨1⟩, ⟨1⟩, ⟨1⟩, ⟨1⟩]⟩),
           ("out", ⟨2, 2, [⟨0⟩, ⟨0⟩, ⟨0⟩, ⟨0⟩]⟩)]⟩,
         {}, 3, none⟩)).1.context).Nodup ∧
    mappingKeys ((AutoMappingContext.modifyClone
        (AutoMappingContext.modifyClone {} ⟨[]⟩ "out" id) ⟨[]⟩ "out" id) :
        AutoMappingContext) =
      mappingKeys (AutoMappingContext.modifyClone {} ⟨[]⟩ "out" id) := by
  constructor
  · exact (cloneOnWrite_unique
      ⟨[⟨"s", [⟨"main", [⟨⟨1, 1, [⟨1⟩]⟩, false⟩], []⟩]⟩],
       [⟨"o", [(⟨1, 1, [⟨2⟩]⟩, "out")], []⟩],
       [⟨[(0, 0)], [(0, 0)], {}⟩], {}⟩
      ((Rect.mk 0 0 2 2).points)
      ⟨⟨[("main", ⟨2, 2, [⟨1⟩, ⟨1⟩, ⟨1⟩, ⟨1⟩]⟩),
         ("out", ⟨2, 2, [⟨0⟩, ⟨0⟩, ⟨0⟩, ⟨0⟩]⟩)]⟩,
       {}, 3, none⟩ (by decide)).1
  · exact (cloneOnWrite_unique
      ⟨[⟨"s", [⟨"main", [⟨⟨1, 1, [⟨1⟩]⟩, false⟩], []⟩]⟩],
       [⟨"o", [(⟨1, 1, [⟨2⟩]⟩, "out")], []⟩],
       [⟨[(0, 0)], [(0, 0)], {}⟩], {}⟩
      ((Rect.mk 0 0 2 2).points)
      ⟨⟨[("main", ⟨2, 2, [⟨1⟩, ⟨1⟩, ⟨1⟩, ⟨1⟩]⟩),
         ("out", ⟨2, 2, [⟨0⟩, ⟨0⟩, ⟨0⟩, ⟨0⟩]⟩)]⟩,
       {}, 3, none⟩ (by decide)).2 {} ⟨[]⟩ "out" id id

theorem runRules_append (m : AutoMapperModel) (region : Region) :
    ∀ (a b : List Rule) (st : ScanState),
      runRules m region (a ++ b) st =
        ((runRules m region b (runRules m region a st).1).1,
         (runRules m region a st).2 ++
           (runRules m region b (runRules m region a st).1).2) := by
  intro a
  induction a with
  | nil =>
    intro b st
    show runRules m region b st = _
    rfl
  | cons r rs ih =>
    intro b st
    rw [List.cons_append, runRules_cons, runRules_cons, ih]
    dsimp only
    rw [List.append_assoc]

theorem processRule_malformed (m : AutoMapperModel) (region : Region)
    (st : ScanState) (r : Rule) (h : ruleMalformed r = true) :
    processRule m region st r = (st, [malformedWarning]) := by
  unfold processRule
  rw [if_pos h]

theorem processRule_healthy_warnings (m : AutoMapperModel) (region : Region)
    (st : ScanState) (r : Rule) (h : ruleMalformed r = false) :
    (processRule m region st r).2 = [] := by
  unfold processRule
  rw [if_neg (by rw [h]; exact Bool.false_ne_true)]

theorem runRules_healthy_warnings (m : AutoMapperModel) (region : Region) :
    ∀ (rs : List Rule) (st : ScanState),
      (∀ r ∈ rs, ruleMalformed r = false) →
      (runRules m region rs st).2 = [] := by
  intro rs
  induction rs with
  | nil => intro st _; rfl
  | cons r rs ih =>
    intro st h
    rw [runRules_cons]
    dsimp only
    rw [processRule_healthy_warnings m region st r (h r (List.mem_cons_self _ _))]
    rw [ih _ (fun r' hr' => h r' (List.mem_cons_of_mem _ hr'))]
    rfl

/-- C9: partial-failure isolation — when exactly one rule of the scan
list is malformed, the scan state after the full run equals the state
of the run without the malformed rule (every other rule is matched and
applied exactly as it would be then), exactly one warning is
accumulated, the run without it produces no warning at all, and the
engine's error string is untouched (the scan never aborts). -/
theorem malformedRule_isolated (m : AutoMapperModel) (region : Region)
    (pre post : List Rule) (bad : Rule) (st : ScanState)
    (hm : m.rules = pre ++ bad :: post)
    (hbad : ruleMalformed bad = true)
    (hpre : ∀ r ∈ pre, ruleMalformed r = false)
    (hpost : ∀ r ∈ post, ruleMalformed r = false) :
    (autoMap m region st).1 = (runRules m region (pre ++ post) st).1 ∧
    (autoMap m region st).2 = [malformedWarning] ∧
    (runRules m region (pre ++ post) st).2 = [] ∧
    (autoMap m region st).1.error = st.error := by
  have hfull : autoMap m region st = runRules m region (pre ++ bad :: post) st := by
    unfold autoMap
    rw [hm]
  have hbadstep :
      runRules m region (bad :: post) (runRules m region pre st).1 =
        ((runRules m region post (runRules m region pre st).1).1,
         malformedWarning ::
           (runRules m region post (runRules m region pre st).1).2) := by
    rw [runRules_cons,
      processRule_malformed m region (runRules m region pre st).1 bad hbad]
    dsimp only
    rfl
  have h1 : (autoMap m region st).1 = (runRules m region (pre ++ post) st).1 := by
    rw [hfull, runRules_append, runRules_append, hbadstep]
  refine ⟨h1, ?_, ?_, ?_⟩
  · rw [hfull, runRules_append, hbadstep]
    dsimp only
    rw [runRules_healthy_warnings m region pre st hpre,
      runRules_healthy_warnings m region post _ hpost]
    rfl
  · rw [runRules_append,
      runRules_healthy_warnings m region pre st hpre,
      runRules_healthy_warnings m region post _ hpost]
    rfl
  · rw [h1]
    exact (runRules_state m region (pre ++ post) st).2

/-- Witness for C9: a two-rule scan whose second rule has an empty
input pattern behaves exactly like the one-rule scan without it and
reports a single warning, with no error. -/
theorem malformedRule_isolated_witness :
    (autoMap
      ⟨[⟨"s", [⟨"main", [⟨⟨1, 1, [⟨1⟩]⟩, false⟩], []⟩]⟩],
       [⟨"o", [(⟨1, 1, [⟨2⟩]⟩, "out")], []⟩],
       [⟨[(0, 0)], [(0, 0)], {}⟩, ⟨[], [], {}⟩], {}⟩
      ((Rect.mk 0 0 2 2).points)
      ⟨⟨[("main", ⟨2, 2, [⟨1⟩, ⟨1⟩, ⟨1⟩, ⟨1⟩]⟩)]⟩, {}, 5, none⟩).1 =
      (runRules
        ⟨[⟨"s", [⟨"main", [⟨⟨1, 1, [⟨1⟩]⟩, false⟩], []⟩]⟩],
         [⟨"o", [(⟨1, 1, [⟨2⟩]⟩, "out")], []⟩],
         [⟨[(0, 0)], [(0, 0)], {}⟩, ⟨[], [], {}⟩], {}⟩
        ((Rect.mk 0 0 2 2).points)
        [⟨[(0, 0)], [(0, 0)], {}⟩]
        ⟨⟨[("main", ⟨2, 2, [⟨1⟩, ⟨1⟩, ⟨1⟩, ⟨1⟩]⟩)]⟩, {}, 5, none⟩).1 ∧
    (autoMap
      ⟨[⟨"s", [⟨"main", [⟨⟨1, 1, [⟨1⟩]⟩, false⟩], []⟩]⟩],
       [⟨"o", [(⟨1, 1, [⟨2⟩]⟩, "out")], []⟩],
       [⟨[(0, 0)], [(0, 0)], {}⟩, ⟨[], [], {}⟩], {}⟩
      ((Rect.mk 0 0 2 2).points)
      ⟨⟨[("main", ⟨2, 2, [⟨1⟩, ⟨1⟩, ⟨1⟩, ⟨1⟩]⟩)]⟩, {}, 5, none⟩).2 =
      [malformedWarning] ∧
    (autoMap
      ⟨[⟨"s", [⟨"main", [⟨⟨1, 1, [⟨1⟩]⟩, false⟩], []⟩]⟩],
       [⟨"o", [(⟨1, 1, [⟨2⟩]⟩, "out")], []⟩],
       [⟨[(0, 0)], [(0, 0)], {}⟩, ⟨[], [], {}⟩], {}⟩
      ((Rect.mk 0 0 2 2).points)
      ⟨⟨[("main", ⟨2, 2, [⟨1⟩, ⟨1⟩, ⟨1⟩, ⟨1⟩]⟩)]⟩, {}, 5, none⟩).1.error
      = none := by
  have h := malformedRule_isolated
    ⟨[⟨"s", [⟨"main", [⟨⟨1, 1, [⟨1⟩]⟩, false⟩], []⟩]⟩],
     [⟨"o", [(⟨1, 1, [⟨2⟩]⟩, "out")], []⟩],
     [⟨[(0, 0)], [(0, 0)], {}⟩, ⟨[], [], {}⟩], {}⟩
    ((Rect.mk 0 0 2 2).points)
    [⟨[(0, 0)], [(0, 0)], {}⟩] [] ⟨[], [], {}⟩
    ⟨⟨[("main", ⟨2, 2, [⟨1⟩, ⟨1⟩, ⟨1⟩, ⟨1⟩]⟩)]⟩, {}, 5, none⟩
    rfl (by decide) (by decide) (by decide)
  exact ⟨h.1, h.2.1, h.2.2.2⟩

theorem intersects_iff (a b : Region) :
    Region.intersects a b = true ↔ ∃ p ∈ a, p ∈ b := by
  unfold Region.intersects
  rw [List.any_eq_true]
  constructor
  · rintro ⟨p, hp, h⟩
    exact ⟨p, hp, by simpa using h⟩
  · rintro ⟨p, hp, h⟩
    exact ⟨p, hp, by simpa using h⟩

theorem intersects_eq_false_iff (a b : Region) :
    Region.intersects a b = false ↔ ∀ p ∈ a, p ∉ b := by
  constructor
  · intro h p hp hpb
    have h2 : Region.intersects a b = true := (intersects_iff a b).mpr ⟨p, hp, hpb⟩
    rw [h] at h2
    exact Bool.false_ne_true h2
  · intro h
    rw [Bool.eq_false_iff]
    intro hc
    obtain ⟨p, hp, hpb⟩ := (intersects_iff a b).mp hc
    exact h p hp hpb

theorem intersects_comm_false (a b : Region)
    (h : Region.intersects a b = false) : Region.intersects b a = false := by
  rw [intersects_eq_false_iff] at h ⊢
  intro p hp hpa
  exact h p hpa hp

theorem intersects_append_false_left (a b c : Region)
    (h : Region.intersects a (b ++ c) = false) :
    Region.intersects a b = false := by
  rw [intersects_eq_false_iff] at h ⊢
  intro p hp hpb
  exact h p hp (List.mem_append.mpr (Or.inl hpb))

theorem intersects_append_false_right (a b c : Region)
    (h : Region.intersects a (b ++ c) = false) :
    Region.intersects a c = false := by
  rw [intersects_eq_false_iff] at h ⊢
  intro p hp hpc
  exact h p hp (List.mem_append.mpr (Or.inr hpc))

theorem applyRuleAt_cases (os : List OutputSet) (r : Rule) (a : GridPoint)
    (applied : Region) (st : ScanState)
    (hov : r.options.noOverlappingOutput = true) :
    ((applyRuleAt os r a applied st).1 = false ∧
      (applyRuleAt os r a applied st).2.1 = applied) ∨
    ((applyRuleAt os r a applied st).1 = true ∧
      (applyRuleAt os r a applied st).2.1 = applied ++ r.footprint a ∧
      Region.intersects (r.footprint a) applied = false) := by
  unfold applyRuleAt
  dsimp only
  split
  · left; exact ⟨rfl, rfl⟩
  · split
    case isTrue h => left; exact ⟨rfl, rfl⟩
    case isFalse h =>
      right
      refine ⟨rfl, rfl, ?_⟩
      have h2 : (r.options.noOverlappingOutput &&
          Region.intersects (r.outputRegion.translate a) applied) = false :=
        Bool.eq_false_iff.mpr h
      rw [hov, Bool.true_and] at h2
      exact h2

theorem applyRuleAt_skip_of_overlap (os : List OutputSet) (r : Rule)
    (b : GridPoint) (applied : Region) (st : ScanState)
    (hov : r.options.noOverlappingOutput = true)
    (hint : Region.intersects (r.footprint b) applied = true) :
    (applyRuleAt os r b applied st).1 = false := by
  rcases applyRuleAt_cases os r b applied st hov with ⟨h1, -⟩ | ⟨-, -, h3⟩
  · exact h1
  · rw [hint] at h3
    exact absurd h3 (by decide)

theorem applyAnchors_invariant (os : List OutputSet) (r : Rule)
    (hov : r.options.noOverlappingOutput = true) :
    ∀ (anchors : List GridPoint) (applied : Region) (st : ScanState),
      (∃ ext, (applyAnchors os r anchors applied st).2.1 = applied ++ ext) ∧
      (∀ a ∈ (applyAnchors os r anchors applied st).1,
        Region.intersects (r.footprint a) applied = false) ∧
      (∀ a ∈ (applyAnchors os r anchors applied st).1,
        ∀ p ∈ r.footprint a, p ∈ (applyAnchors os r anchors applied st).2.1) ∧
      List.Pairwise (fun a b =>
        Region.intersects (r.footprint a) (r.footprint b) = false)
        (applyAnchors os r anchors applied st).1 := by
  intro anchors
  induction anchors with
  | nil =>
    intro applied st
    refine ⟨⟨[], by show applied = applied ++ []; rw [List.append_nil]⟩,
      ?_, ?_, ?_⟩
    · intro a ha; simp [applyAnchors] at ha
    · intro a ha; simp [applyAnchors] at ha
    · exact List.Pairwise.nil
  | cons a anchors ih =>
    intro applied st
    rw [applyAnchors_cons]
    rcases applyRuleAt_cases os r a applied st hov with ⟨h1, h2⟩ | ⟨h1, h2, h3⟩
    · rw [h1, h2]
      simp only [Bool.false_eq_true, if_false]
      exact ih applied (applyRuleAt os r a applied st).2.2
    · rw [h1, h2]
      rw [if_pos rfl]
      obtain ⟨⟨ext, hext⟩, hdisj, hsub, hpw⟩ :=
        ih (applied ++ r.footprint a) (applyRuleAt os r a applied st).2.2
      refine ⟨⟨r.footprint a ++ ext, by rw [hext, List.append_assoc]⟩, ?_, ?_, ?_⟩
      · intro x hx
        rcases List.mem_cons.mp hx with rfl | hx'
        · exact h3
        · exact intersects_append_false_left _ _ _ (hdisj x hx')
      · intro x hx p hp
        rcases List.mem_cons.mp hx with rfl | hx'
        · rw [hext]
          exact List.mem_append.mpr
            (Or.inl (List.mem_append.mpr (Or.inr hp)))
        · exact hsub x hx' p hp
      · refine List.pairwise_cons.mpr ⟨?_, hpw⟩
        intro b hb
        have hd := intersects_append_false_right _ _ _ (hdisj b hb)
        exact intersects_comm_false _ _ hd

theorem applyAnchors_append (os : List OutputSet) (r : Rule) :
    ∀ (xs ys : List GridPoint) (applied : Region) (st : ScanState),
      applyAnchors os r (xs ++ ys) applied st =
        ((applyAnchors os r xs applied st).1 ++
          (applyAnchors os r ys (applyAnchors os r xs applied st).2.1
            (applyAnchors os r xs applied st).2.2).1,
         (applyAnchors os r ys (applyAnchors os r xs applied st).2.1
           (applyAnchors os r xs applied st).2.2).2.1,
         (applyAnchors os r ys (applyAnchors os r xs applied st).2.1
           (applyAnchors os r xs applied st).2.2).2.2) := by
  intro xs
  induction xs with
  | nil => intro ys applied st; rfl
  | cons x xs ih =>
    intro ys applied st
    rw [List.cons_append, applyAnchors_cons, applyAnchors_cons, ih]
    cases hr0 : (applyRuleAt os r x applied st).1 with
    | false => simp
    | true => simp

/-- C4: no-overlapping-output — with the option set for the rule, the
anchors actually applied in scan order have pairwise disjoint output
footprints; a later candidate whose footprint overlaps an earlier
applied anchor's footprint is skipped entirely; and processing more
anchors only appends to the applied-anchor list, never undoing an
earlier application. -/
theorem applyRule_noOverlap (os : List OutputSet) (r : Rule)
    (hov : r.options.noOverlappingOutput = true) :
    (∀ (anchors : List GridPoint) (applied : Region) (st : ScanState),
      List.Pairwise (fun a b =>
        Region.intersects (r.footprint a) (r.footprint b) = false)
        (applyAnchors os r anchors applied st).1) ∧
    (∀ (xs : List GridPoint) (b : GridPoint) (applied : Region)
      (st : ScanState) (a : GridPoint),
      a ∈ (applyAnchors os r xs applied st).1 →
      Region.intersects (r.footprint b) (r.footprint a) = true →
      (applyRuleAt os r b (applyAnchors os r xs applied st).2.1
        (applyAnchors os r xs applied st).2.2).1 = false) ∧
    (∀ (xs ys : List GridPoint) (applied : Region) (st : ScanState),
      (applyAnchors os r (xs ++ ys) applied st).1 =
        (applyAnchors os r xs applied st).1 ++
          (applyAnchors os r ys (applyAnchors os r xs applied st).2.1
            (applyAnchors os r xs applied st).2.2).1) := by
  refine ⟨?_, ?_, ?_⟩
  · intro anchors applied st
    exact (applyAnchors_invariant os r hov anchors applied st).2.2.2
  · intro xs b applied st a ha hint
    have hinv := applyAnchors_invariant os r hov xs applied st
    obtain ⟨p, hpb, hpa⟩ := (intersects_iff _ _).mp hint
    have hmem : p ∈ (applyAnchors os r xs applied st).2.1 :=
      hinv.2.2.1 a ha p hpa
    exact applyRuleAt_skip_of_overlap os r b _ _ hov
      ((intersects_iff _ _).mpr ⟨p, hpb, hmem⟩)
  · intro xs ys applied st
    rw [applyAnchors_append]

/-- Witness for C4: a two-cell-wide output rule over the anchors
`(0,0), (1,0), (2,0)` — anchor `(0,0)` is applied, the overlapping
anchor `(1,0)` is skipped, and the applied footprints are pairwise
disjoint. -/
theorem applyRule_noOverlap_witness :
    List.Pairwise (fun a b =>
      Region.intersects
        ((Rule.mk [(0, 0)] [(0, 0), (1, 0)]
          { noOverlappingOutput := true }).footprint a)
        ((Rule.mk [(0, 0)] [(0, 0), (1, 0)]
          { noOverlappingOutput := true }).footprint b) = false)
      (applyAnchors [] (Rule.mk [(0, 0)] [(0, 0), (1, 0)]
          { noOverlappingOutput := true })
        [(0, 0), (1, 0), (2, 0)] [] ⟨⟨[]⟩, {}, 0, none⟩).1 ∧
    (applyRuleAt [] (Rule.mk [(0, 0)] [(0, 0), (1, 0)]
        { noOverlappingOutput := true }) (1, 0)
      (applyAnchors [] (Rule.mk [(0, 0)] [(0, 0), (1, 0)]
          { noOverlappingOutput := true })
        [(0, 0)] [] ⟨⟨[]⟩, {}, 0, none⟩).2.1
      (applyAnchors [] (Rule.mk [(0, 0)] [(0, 0), (1, 0)]
          { noOverlappingOutput := true })
        [(0, 0)] [] ⟨⟨[]⟩, {}, 0, none⟩).2.2).1 = false := by
  constructor
  · exact (applyRule_noOverlap [] (Rule.mk [(0, 0)] [(0, 0), (1, 0)]
      { noOverlappingOutput := true }) rfl).1
      [(0, 0), (1, 0), (2, 0)] [] ⟨⟨[]⟩, {}, 0, none⟩
  · exact (applyRule_noOverlap [] (Rule.mk [(0, 0)] [(0, 0), (1, 0)]
      { noOverlappingOutput := true }) rfl).2.1
      [(0, 0)] (1, 0) [] ⟨⟨[]⟩, {}, 0, none⟩ (0, 0) (by decide) (by decide)

end Tiled
